/-
Verification of the cf-mgmt role-membership reconciliation engine.

This file gives a shallow embedding of the `user` package (second half of
src/main.go) and the `space` package (src/unnamed/part_000) of the
gondoi/cf-mgmt repository, and proves/refutes the frozen claims about it.

Modelling conventions:
  - Go maps `map[string]string` / `map[string]*uaa.User` become association
    lists; `delete` removes the key, assignment inserts/overwrites it.
    Go map iteration order is modelled by list order.
  - `strings.ToLower` is modelled by `strToLower`, `strings.Contains`
    by `goContains`, `fmt.Sprintf("%s-...", s)` by string append.
  - Side-effecting calls against the platform (list / associate / remove /
    provision) are modelled by an environment of result functions plus an
    explicit trace of emitted call events (`Ev`); dry-run logging emits no
    event, matching the spec's "structured log entry, treated as success".
  - Fallible Go calls become `Except Err`.
-/
import Mathlib

/-- One identity record of the UAA snapshot (`uaaclient.User`): the fields
the engine sets at src/main.go:1173-1178. `Emails` is a list of values. -/
structure UAAUser where
  username : String
  emails : List String
  externalID : String
  origin : String
deriving DecidableEq

/-- The UAA snapshot: case-folded username (as loaded; `SyncSamlUsers`
inserts under the original-case email) to identity record. -/
abbrev UAAMap := List (String × UAAUser)

/-- Current holders of one role: case-folded username to GUID
(`map[string]string`). -/
abbrev RoleUsers := List (String × String)

/-- Error kinds of the engine's fallible calls. -/
inductive Err where
  | userNotInUAA (user : String)
  | addFailed (user : String)
  | removeFailed (user : String)
  | orgAssocFailed (user : String)
  | roleAssocFailed (user : String)
  | groupLookupFailed (group : String)
  | spaceNotFound (spaceName orgName : String)
  | backendErr (code : Nat)
  | listFailed
deriving DecidableEq

/-- Remote calls the engine can issue (the observable side effects). -/
inductive Ev where
  | addUser (user : String)
  | provision (user : String)
  | removeUser (user : String)
  | assocOrg (orgGUID user : String)
  | assocRole (targetGUID user : String)
  | backendList (guid : String)
  | listOrgUsers (orgGUID : String)
  | removeOrgUser (orgGUID user : String)
deriving DecidableEq

/-- Go map read `m[k]`. -/
def mapLookup (m : List (String × α)) (k : String) : Option α :=
  match m with
  | [] => none
  | (k2, v) :: rest => if k2 = k then some v else mapLookup rest k

/-- Go map `delete(m, k)`. -/
def mapErase (m : List (String × α)) (k : String) : List (String × α) :=
  m.filter (fun p => p.1 ≠ k)

/-- Go map write `m[k] = v`. -/
def mapInsert (m : List (String × α)) (k : String) (v : α) : List (String × α) :=
  match m with
  | [] => [(k, v)]
  | (k2, v2) :: rest => if k2 = k then (k, v) :: rest else (k2, v2) :: mapInsert rest k v

/-- Erase several keys in sequence. -/
def eraseAll (m : List (String × α)) (ks : List String) : List (String × α) :=
  ks.foldl mapErase m

/-- Is `pat` a (character-level) prefix of `l`? -/
def isPre : List Char → List Char → Bool
  | [], _ => true
  | _ :: _, [] => false
  | p :: ps, c :: cs => p = c && isPre ps cs

/-- Does `pat` occur as a contiguous sublist of `l`? -/
def hasSub (pat : List Char) : List Char → Bool
  | [] => isPre pat []
  | c :: cs => isPre pat (c :: cs) || hasSub pat cs

/-- Go `strings.Contains(s, pat)`. -/
def goContains (s pat : String) : Bool :=
  hasSub pat.data s.data

/-- Go `strings.ToLower` (kernel-computable form of `String.toLower`). -/
def strToLower (s : String) : String :=
  String.mk (s.data.map Char.toLower)

/-- Embeds `userListToMap` (src/main.go:665-671): build the RoleUsers map keyed by
the lower-cased username. -/
def userListToMap (users : List (String × String)) : RoleUsers :=
  users.foldl (fun m u => mapInsert m (strToLower u.1) u.2) []

/-- Embeds `ListSpaceAuditors` (src/main.go:612-621): under dry-run, a space GUID
containing the substring dry-run-space-guid short-circuits to an empty
member map with no backend call; otherwise the backend is queried. -/
def ListSpaceAuditors (peek : Bool) (backend : String → Except Err (List (String × String)))
    (spaceGUID : String) : Except Err RoleUsers × List Ev :=
  if peek && goContains spaceGUID "dry-run-space-guid" then (.ok [], [])
  else
    match backend spaceGUID with
    | .error e => (.error e, [.backendList spaceGUID])
    | .ok users => (.ok (userListToMap users), [.backendList spaceGUID])

/-- Embeds `ListSpaceDevelopers` (src/main.go:622-631). -/
def ListSpaceDevelopers (peek : Bool) (backend : String → Except Err (List (String × String)))
    (spaceGUID : String) : Except Err RoleUsers × List Ev :=
  if peek && goContains spaceGUID "dry-run-space-guid" then (.ok [], [])
  else
    match backend spaceGUID with
    | .error e => (.error e, [.backendList spaceGUID])
    | .ok users => (.ok (userListToMap users), [.backendList spaceGUID])

/-- Embeds `ListSpaceManagers` (src/main.go:632-641). -/
def ListSpaceManagers (peek : Bool) (backend : String → Except Err (List (String × String)))
    (spaceGUID : String) : Except Err RoleUsers × List Ev :=
  if peek && goContains spaceGUID "dry-run-space-guid" then (.ok [], [])
  else
    match backend spaceGUID with
    | .error e => (.error e, [.backendList spaceGUID])
    | .ok users => (.ok (userListToMap users), [.backendList spaceGUID])

/-- Embeds `ListOrgAuditors` (src/main.go:749-758): same shape, org GUID marker. -/
def ListOrgAuditors (peek : Bool) (backend : String → Except Err (List (String × String)))
    (orgGUID : String) : Except Err RoleUsers × List Ev :=
  if peek && goContains orgGUID "dry-run-org-guid" then (.ok [], [])
  else
    match backend orgGUID with
    | .error e => (.error e, [.backendList orgGUID])
    | .ok users => (.ok (userListToMap users), [.backendList orgGUID])

/-- Embeds `ListOrgBillingManagers` (src/main.go:759-768). -/
def ListOrgBillingManagers (peek : Bool) (backend : String → Except Err (List (String × String)))
    (orgGUID : String) : Except Err RoleUsers × List Ev :=
  if peek && goContains orgGUID "dry-run-org-guid" then (.ok [], [])
  else
    match backend orgGUID with
    | .error e => (.error e, [.backendList orgGUID])
    | .ok users => (.ok (userListToMap users), [.backendList orgGUID])

/-- Embeds `ListOrgManagers` (src/main.go:769-778). -/
def ListOrgManagers (peek : Bool) (backend : String → Except Err (List (String × String)))
    (orgGUID : String) : Except Err RoleUsers × List Ev :=
  if peek && goContains orgGUID "dry-run-org-guid" then (.ok [], [])
  else
    match backend orgGUID with
    | .error e => (.error e, [.backendList orgGUID])
    | .ok users => (.ok (userListToMap users), [.backendList orgGUID])

/-- The fields of `cfclient.Space` used by the engine. -/
structure SpaceRef where
  name : String
  guid : String
  organizationGuid : String
deriving DecidableEq

/-- Embeds `FindSpace` (src/unnamed/part_000:84-106): resolve the org GUID, list its
spaces, return the first whose name equals `spaceName`; if absent, under
dry-run synthesize a placeholder with name-derived GUIDs, else fail. -/
def FindSpace (peek : Bool) (orgLookup : String → Except Err String)
    (listSpacesOf : String → Except Err (List SpaceRef))
    (orgName spaceName : String) : Except Err SpaceRef :=
  match orgLookup orgName with
  | .error e => .error e
  | .ok orgGUID =>
    match listSpacesOf orgGUID with
    | .error e => .error e
    | .ok spaces =>
      match spaces.find? (fun s => s.name == spaceName) with
      | some s => .ok s
      | none =>
        if peek then
          .ok { name := spaceName
                guid := spaceName ++ "-dry-run-space-guid"
                organizationGuid := orgName ++ "-dry-run-org-guid" }
        else .error (.spaceNotFound spaceName orgName)

/-- The environment of the reconciliation's external collaborators:
success/failure of each remote call, and the configured SAML origin
(`m.LdapConfig.Origin`). -/
structure SyncEnv where
  addOk : String → Bool
  removeOk : String → Bool
  provisionOk : String → Bool
  origin : String

/-- The fields of `UpdateUsersInput` (src/main.go) used by the claims; the
`ListUsers`/`AddUser`/`RemoveUser` callables are modelled through `SyncEnv`
and an explicit list result. -/
structure UpdateUsersInput where
  orgName : String
  spaceName : String
  orgGUID : String
  spaceGUID : String
  users : List String
  samlUsers : List String
  ldapGroupNames : List String
  removeUsers : Bool
deriving DecidableEq

/-- Embeds `AddUserToOrg` (src/main.go:715-721): dry-run returns nil with no call;
otherwise `AssociateOrgUserByUsername(OrgGUID, userName)` is issued. -/
def AddUserToOrg (peek : Bool) (assocOrgOk : String → String → Bool)
    (userName : String) (input : UpdateUsersInput) : Except Err Unit × List Ev :=
  if peek then (.ok (), [])
  else if assocOrgOk input.orgGUID userName then
    (.ok (), [.assocOrg input.orgGUID userName])
  else (.error (.orgAssocFailed userName), [.assocOrg input.orgGUID userName])

/-- Embeds `AssociateSpaceDeveloper` (src/main.go:687-699): org association first;
its failure aborts; dry-run replaces the role call by a log; otherwise
`AssociateSpaceDeveloperByUsername(SpaceGUID, userName)` is issued. -/
def AssociateSpaceDeveloper (peek : Bool) (assocOrgOk assocRoleOk : String → String → Bool)
    (input : UpdateUsersInput) (userName : String) : Except Err Unit × List Ev :=
  let org := AddUserToOrg peek assocOrgOk userName input
  match org.1 with
  | .error e => (.error e, org.2)
  | .ok _ =>
    if peek then (.ok (), org.2)
    else if assocRoleOk input.spaceGUID userName then
      (.ok (), org.2 ++ [.assocRole input.spaceGUID userName])
    else (.error (.roleAssocFailed userName), org.2 ++ [.assocRole input.spaceGUID userName])

/-- Embeds `AssociateOrgAuditor` (src/main.go:801-814): same two-phase shape with
the role call targeting the org GUID. -/
def AssociateOrgAuditor (peek : Bool) (assocOrgOk assocRoleOk : String → String → Bool)
    (input : UpdateUsersInput) (userName : String) : Except Err Unit × List Ev :=
  let org := AddUserToOrg peek assocOrgOk userName input
  match org.1 with
  | .error e => (.error e, org.2)
  | .ok _ =>
    if peek then (.ok (), org.2)
    else if assocRoleOk input.orgGUID userName then
      (.ok (), org.2 ++ [.assocRole input.orgGUID userName])
    else (.error (.roleAssocFailed userName), org.2 ++ [.assocRole input.orgGUID userName])

/-- Embeds `SyncInternalUsers` (src/main.go:1147-1162): each configured internal
user must exist in the UAA snapshot (else error); absent role holders get an
add call (failure aborts); present ones are deleted from the working map. -/
def SyncInternalUsers (env : SyncEnv) (uaaUsers : UAAMap) :
    List String → RoleUsers → Except Err Unit × RoleUsers × List Ev
  | [], roleUsers => (.ok (), roleUsers, [])
  | userID :: rest, roleUsers =>
    let lowerUserID := strToLower userID
    match mapLookup uaaUsers lowerUserID with
    | none => (.error (.userNotInUAA lowerUserID), roleUsers, [])
    | some _ =>
      match mapLookup roleUsers lowerUserID with
      | none =>
        if env.addOk userID then
          let res := SyncInternalUsers env uaaUsers rest roleUsers
          (res.1, res.2.1, .addUser userID :: res.2.2)
        else (.error (.addFailed userID), roleUsers, [.addUser userID])
      | some _ => SyncInternalUsers env uaaUsers rest (mapErase roleUsers lowerUserID)

/-- One iteration of the `SyncSamlUsers` loop body (src/main.go:1165-1188):
if the (case-folded) email is absent from the UAA map, provision it —
on provisioning failure log and continue (`none` abort, no further events
for this principal); on success insert the new identity under the
original-case email.  Then the usual add / mark-satisfied step. -/
def samlOne (env : SyncEnv) (uaaUsers : UAAMap) (roleUsers : RoleUsers)
    (userEmail : String) : Option Err × UAAMap × RoleUsers × List Ev :=
  let lowerUserEmail := strToLower userEmail
  let provisioned :=
    match mapLookup uaaUsers lowerUserEmail with
    | some _ => (uaaUsers, ([] : List Ev), true)
    | none =>
      if env.provisionOk userEmail then
        (mapInsert uaaUsers userEmail
          { username := userEmail, emails := [userEmail],
            externalID := userEmail, origin := env.origin },
         [Ev.provision userEmail], true)
      else (uaaUsers, [Ev.provision userEmail], false)
  if provisioned.2.2 then
    match mapLookup roleUsers lowerUserEmail with
    | none =>
      if env.addOk userEmail then
        (none, provisioned.1, roleUsers, provisioned.2.1 ++ [Ev.addUser userEmail])
      else (some (.addFailed userEmail), provisioned.1, roleUsers,
            provisioned.2.1 ++ [Ev.addUser userEmail])
    | some _ => (none, provisioned.1, mapErase roleUsers lowerUserEmail, provisioned.2.1)
  else (none, provisioned.1, roleUsers, provisioned.2.1)

/-- Embeds `SyncSamlUsers` (src/main.go:1164-1190): the loop over the configured
SAML principals.  Note the UAA map mutation persists across iterations. -/
def SyncSamlUsers (env : SyncEnv) (uaaUsers : UAAMap) :
    List String → RoleUsers → Except Err Unit × UAAMap × RoleUsers × List Ev
  | [], roleUsers => (.ok (), uaaUsers, roleUsers, [])
  | userEmail :: rest, roleUsers =>
    let one := samlOne env uaaUsers roleUsers userEmail
    match one.1 with
    | some e => (.error e, one.2.1, one.2.2.1, one.2.2.2)
    | none =>
      let res := SyncSamlUsers env one.2.1 rest one.2.2.1
      (res.1, res.2.1, res.2.2.1, one.2.2.2 ++ res.2.2.2)

/-- Resolve the configured group names through the Group Resolver; a name
that cannot be resolved is a `GroupLookupError`. -/
def resolveGroups (resolver : String → Option (List String)) :
    List String → Except Err (List String)
  | [] => .ok []
  | g :: rest =>
    match resolver g with
    | none => .error (.groupLookupFailed g)
    | some members =>
      match resolveGroups resolver rest with
      | .error e => .error e
      | .ok more => .ok (members ++ more)

/-- Modelled from the spec: the body of `SyncLdapUsers` is called at
src/main.go:1132 but is not part of the provided source.  Per spec §4.1
step 4, group names are resolved by the Group Resolver and each resolved
member "follows the same add/mark-satisfied logic as step 2, using the
directory for existence checks", i.e. the `SyncInternalUsers` logic. -/
def SyncLdapUsers (env : SyncEnv) (resolver : String → Option (List String))
    (uaaUsers : UAAMap) (groupNames : List String) (roleUsers : RoleUsers) :
    Except Err Unit × RoleUsers × List Ev :=
  match resolveGroups resolver groupNames with
  | .error e => (.error e, roleUsers, [])
  | .ok members => SyncInternalUsers env uaaUsers members roleUsers

/-- The abort-on-error removal loop inside `RemoveUsers`
(src/main.go:1194-1198). -/
def removeAll (env : SyncEnv) : RoleUsers → Except Err Unit × List Ev
  | [] => (.ok (), [])
  | (roleUser, _) :: rest =>
    if env.removeOk roleUser then
      let res := removeAll env rest
      (res.1, .removeUser roleUser :: res.2)
    else (.error (.removeFailed roleUser), [.removeUser roleUser])

/-- Embeds `RemoveUsers` (src/main.go:1192-1207): only when the input's
`RemoveUsers` flag is set are the remaining role holders removed; otherwise
only a debug line is logged. -/
def RemoveUsers (env : SyncEnv) (updateUsersInput : UpdateUsersInput)
    (roleUsers : RoleUsers) : Except Err Unit × List Ev :=
  if updateUsersInput.removeUsers then removeAll env roleUsers
  else (.ok (), [])

/-- Embeds `SyncUsers` (src/main.go:1126-1145): list current members, then sync
LDAP-group users, internal users, SAML users, then remove extraneous
members; any returned error aborts the binding.  The `ListUsers` callable's
outcome is the `listResult` parameter.  Returns the result, the UAA map
after the run (mutated in place by `SyncSamlUsers`), and the call trace. -/
def SyncUsers (env : SyncEnv) (resolver : String → Option (List String))
    (listResult : Except Err RoleUsers) (uaaUsers : UAAMap)
    (input : UpdateUsersInput) : Except Err Unit × UAAMap × List Ev :=
  match listResult with
  | .error e => (.error e, uaaUsers, [])
  | .ok roleUsers =>
    let ldap := SyncLdapUsers env resolver uaaUsers input.ldapGroupNames roleUsers
    match ldap.1 with
    | .error e => (.error e, uaaUsers, ldap.2.2)
    | .ok _ =>
      let internal := SyncInternalUsers env uaaUsers input.users ldap.2.1
      match internal.1 with
      | .error e => (.error e, uaaUsers, ldap.2.2 ++ internal.2.2)
      | .ok _ =>
        let saml := SyncSamlUsers env uaaUsers input.samlUsers internal.2.1
        match saml.1 with
        | .error e => (.error e, saml.2.1, ldap.2.2 ++ internal.2.2 ++ saml.2.2.2)
        | .ok _ =>
          let rem := RemoveUsers env input saml.2.2.1
          (rem.1, saml.2.1, ldap.2.2 ++ internal.2.2 ++ saml.2.2.2 ++ rem.2)

/-- The reconciliation sequence of one run, flattening the loop of
`UpdateSpaceUsers` (src/main.go:846-864) / `updateSpaceUsers` into the
sequence of `SyncUsers` calls it makes: the UAA snapshot is loaded once
(`uaa0`) and the same (possibly mutated) map is passed to every call; the
run aborts on the first error.  Also returns, for each reconciliation
actually started, the UAA map it observed on entry. -/
def runSpaceReconciliations (env : SyncEnv) (resolver : String → Option (List String)) :
    List (UpdateUsersInput × Except Err RoleUsers) → UAAMap →
    Except Err Unit × UAAMap × List UAAMap × List Ev
  | [], uaa => (.ok (), uaa, [], [])
  | item :: rest, uaa =>
    let res := SyncUsers env resolver item.2 uaa item.1
    match res.1 with
    | .error e => (.error e, res.2.1, [uaa], res.2.2)
    | .ok _ =>
      let res2 := runSpaceReconciliations env resolver rest res.2.1
      (res2.1, res2.2.1, uaa :: res2.2.2.1, res.2.2 ++ res2.2.2.2)

/-- The fields of `config.OrgConfig` relevant to the cleanup pass: the org
name and the per-org `RemoveUsers` flag (the opt-in flag of spec §4.2,
`enable-remove-users`). -/
structure OrgConfig where
  org : String
  removeUsers : Bool
deriving DecidableEq

/-- Embeds the `organization.Org` reference: the fields of the `FindOrg` result used. -/
structure OrgRef where
  name : String
  guid : String
deriving DecidableEq

/-- The platform backend as seen by the cleanup pass: raw (username, GUID)
lists per role, the org's spaces, the org member list, and the outcome of
`RemoveOrgUserByUsername`. -/
structure CleanupBackend where
  orgAuditorsB : String → Except Err (List (String × String))
  orgManagersB : String → Except Err (List (String × String))
  orgBillingManagersB : String → Except Err (List (String × String))
  spaceAuditorsB : String → Except Err (List (String × String))
  spaceDevelopersB : String → Except Err (List (String × String))
  spaceManagersB : String → Except Err (List (String × String))
  spacesB : String → Except Err (List SpaceRef)
  orgUsersB : String → Except Err (List (String × String))
  removeOrgUserOk : String → String → Bool

/-- Embeds `appendToMap` (src/main.go:1047-1051). -/
def appendToMap (source target : RoleUsers) : RoleUsers :=
  target.foldl (fun m p => mapInsert m p.1 p.2) source

/-- The per-space part of `usersInOrgRoles` (src/main.go:1024-1042).
Note: at src/main.go:1031 the source assigns `spaceDevelopers` from
`m.ListSpaceAuditors(space.Guid)` — the auditor lookup is reused where the
developer lookup was evidently intended; the embedding reproduces this. -/
def usersInOrgRolesSpaces (peek : Bool) (b : CleanupBackend) :
    List SpaceRef → RoleUsers → Except Err RoleUsers
  | [], userMap => .ok userMap
  | space :: rest, userMap =>
    match (ListSpaceAuditors peek b.spaceAuditorsB space.guid).1 with
    | .error e => .error e
    | .ok spaceAuditors =>
      match (ListSpaceAuditors peek b.spaceAuditorsB space.guid).1 with
      | .error e => .error e
      | .ok spaceDevelopers =>
        match (ListSpaceManagers peek b.spaceManagersB space.guid).1 with
        | .error e => .error e
        | .ok spaceManagers =>
          usersInOrgRolesSpaces peek b rest
            (appendToMap (appendToMap (appendToMap userMap spaceAuditors)
              spaceDevelopers) spaceManagers)

/-- Embeds `usersInOrgRoles` (src/main.go:999-1045): union of the org role holders
and, per space, the space role holders (with the defect noted above). -/
def usersInOrgRoles (peek : Bool) (b : CleanupBackend) (orgGUID : String) :
    Except Err RoleUsers :=
  match (ListOrgAuditors peek b.orgAuditorsB orgGUID).1 with
  | .error e => .error e
  | .ok orgAuditors =>
    match (ListOrgManagers peek b.orgManagersB orgGUID).1 with
    | .error e => .error e
    | .ok orgManagers =>
      match (ListOrgBillingManagers peek b.orgBillingManagersB orgGUID).1 with
      | .error e => .error e
      | .ok orgBillingManagers =>
        match b.spacesB orgGUID with
        | .error e => .error e
        | .ok spaces =>
          usersInOrgRolesSpaces peek b spaces
            (appendToMap (appendToMap (appendToMap [] orgAuditors)
              orgManagers) orgBillingManagers)

/-- The removal loop of `cleanupOrgUsers` (src/main.go:980-994): every org
member whose case-folded username is outside the role-holder union is
removed (dry-run: logged only); a removal failure aborts. -/
def cleanupLoop (peek : Bool) (b : CleanupBackend) (orgGUID : String)
    (usersInRoles : RoleUsers) : List (String × String) → Except Err Unit × List Ev
  | [] => (.ok (), [])
  | (username, _) :: rest =>
    if (mapLookup usersInRoles (strToLower username)).isSome then
      cleanupLoop peek b orgGUID usersInRoles rest
    else if peek then cleanupLoop peek b orgGUID usersInRoles rest
    else if b.removeOrgUserOk orgGUID username then
      let res := cleanupLoop peek b orgGUID usersInRoles rest
      (res.1, .removeOrgUser orgGUID username :: res.2)
    else (.error (.removeFailed username), [.removeOrgUser orgGUID username])

/-- Embeds `cleanupOrgUsers` (src/main.go:963-997): find the org, list its members,
compute the role-holder union, and remove non-holders. -/
def cleanupOrgUsers (peek : Bool) (b : CleanupBackend)
    (findOrg : String → Except Err OrgRef) (input : OrgConfig) :
    Except Err Unit × List Ev :=
  match findOrg input.org with
  | .error e => (.error e, [])
  | .ok org =>
    match b.orgUsersB org.guid with
    | .error e => (.error e, [.listOrgUsers org.guid])
    | .ok orgUsers =>
      match usersInOrgRoles peek b org.guid with
      | .error e => (.error e, [.listOrgUsers org.guid])
      | .ok usersInRoles =>
        let res := cleanupLoop peek b org.guid usersInRoles orgUsers
        (res.1, .listOrgUsers org.guid :: res.2)

/-- Embeds `CleanupOrgUsers` (src/main.go:949-961): run `cleanupOrgUsers` for every
configured org, aborting on the first error.  The source has no check of
any per-org flag before doing so. -/
def CleanupOrgUsers (peek : Bool) (b : CleanupBackend)
    (findOrg : String → Except Err OrgRef) :
    List OrgConfig → Except Err Unit × List Ev
  | [] => (.ok (), [])
  | input :: rest =>
    let res := cleanupOrgUsers peek b findOrg input
    match res.1 with
    | .error e => (.error e, res.2)
    | .ok _ =>
      let res2 := CleanupOrgUsers peek b findOrg rest
      (res2.1, res.2 ++ res2.2)

/-- Event `a` occurs strictly before event `b` in the trace `tr`. -/
def occursBefore (a b : Ev) (tr : List Ev) : Prop :=
  ∃ l m r, tr = l ++ a :: m ++ b :: r

/-- Environment in which every remote call succeeds. -/
def envOK : SyncEnv :=
  { addOk := fun _ => true, removeOk := fun _ => true,
    provisionOk := fun _ => true, origin := "ldap" }

/-- A group resolver that knows no groups (never consulted when the
configured group list is empty). -/
def noGroups : String → Option (List String) := fun _ => none

/-- A group resolver mapping the group g to the single member gina. -/
def resolverG : String → Option (List String) :=
  fun g => if g = "g" then some ["gina"] else none

/-- The identity record `SyncSamlUsers` provisions for an email under the
origin of `envOK`. -/
def samUser (e : String) : UAAUser :=
  { username := e, emails := [e], externalID := e, origin := "ldap" }

/-- UAA snapshot containing gina and ivan. -/
def uaaGinaIvan : UAAMap := [("gina", samUser "gina"), ("ivan", samUser "ivan")]

/-- UAA snapshot containing only alice. -/
def uaaAlice : UAAMap := [("alice", samUser "alice")]

/-- UAA snapshot containing only the federated identity sam@x. -/
def uaaSam : UAAMap := [("sam@x", samUser "sam@x")]

/-- A desired-membership input with all sources empty. -/
def baseInput : UpdateUsersInput :=
  { orgName := "o", spaceName := "s", orgGUID := "og", spaceGUID := "sg",
    users := [], samlUsers := [], ldapGroupNames := [], removeUsers := false }

/-- Input with one internal user, one SAML user and one group. -/
def inputC3 : UpdateUsersInput :=
  { baseInput with users := ["ivan"], samlUsers := ["sam@x"], ldapGroupNames := ["g"] }

/-- Input listing the same internal principal twice, in two spellings. -/
def inputC6 : UpdateUsersInput :=
  { baseInput with users := ["alice", "ALICE"], removeUsers := true }

/-- Input with one SAML user. -/
def inputSam : UpdateUsersInput := { baseInput with samlUsers := ["sam@x"] }

/-- Role membership consisting of alice alone. -/
def ruAlice : RoleUsers := [("alice", "g1")]

/-- Cleanup backend: the org has no org-role holders; its single space sg
has dev as its only space developer (and no auditors or managers); dev is
an org member. -/
def bC1 : CleanupBackend :=
  { orgAuditorsB := fun _ => .ok [], orgManagersB := fun _ => .ok [],
    orgBillingManagersB := fun _ => .ok [],
    spaceAuditorsB := fun _ => .ok [],
    spaceDevelopersB := fun _ => .ok [("dev", "g1")],
    spaceManagersB := fun _ => .ok [],
    spacesB := fun _ => .ok [{ name := "s1", guid := "sg", organizationGuid := "og" }],
    orgUsersB := fun _ => .ok [("dev", "gdev")],
    removeOrgUserOk := fun _ _ => true }

/-- Cleanup backend: bob is an org member holding no role anywhere. -/
def bC4 : CleanupBackend :=
  { orgAuditorsB := fun _ => .ok [], orgManagersB := fun _ => .ok [],
    orgBillingManagersB := fun _ => .ok [],
    spaceAuditorsB := fun _ => .ok [],
    spaceDevelopersB := fun _ => .ok [],
    spaceManagersB := fun _ => .ok [],
    spacesB := fun _ => .ok [],
    orgUsersB := fun _ => .ok [("bob", "gb")],
    removeOrgUserOk := fun _ _ => true }

/-- Org lookup resolving every name to the org o with GUID og. -/
def findOrgO : String → Except Err OrgRef := fun _ => .ok { name := "o", guid := "og" }

/-- An org configuration with the remove/opt-in flag set. -/
def cfgOptIn : OrgConfig := { org := "o", removeUsers := true }

/-- An org configuration without the remove/opt-in flag. -/
def cfgNoOptIn : OrgConfig := { org := "o", removeUsers := false }

theorem isPre_refl : ∀ l : List Char, isPre l l = true := by
  intro l
  induction l with
  | nil => rfl
  | cons c cs ih => simp [isPre, ih]

theorem hasSub_append_right (pat ys : List Char) (h : hasSub pat ys = true) :
    ∀ xs : List Char, hasSub pat (xs ++ ys) = true := by
  intro xs
  induction xs with
  | nil => simpa using h
  | cons x l ih => simp [List.cons_append, hasSub, ih]

theorem strData_append (a b : String) : (a ++ b).data = a.data ++ b.data := by
  cases a
  cases b
  rfl

theorem goContains_space_suffix (s : String) :
    goContains (s ++ "-dry-run-space-guid") "dry-run-space-guid" = true := by
  unfold goContains
  rw [strData_append]
  exact hasSub_append_right _ _ (by decide) _

/-- Claim C9: in dry-run, looking up a space absent from its org succeeds
with a placeholder whose GUIDs are derived from the space and org names; a
role-member list on that placeholder skips the backend and yields empty
membership; outside dry-run the same lookup fails with a not-found error. -/
theorem C9_dry_run_placeholder
    (orgLookup : String → Except Err String)
    (listSpacesOf : String → Except Err (List SpaceRef))
    (backend : String → Except Err (List (String × String)))
    (orgName spaceName orgGUID : String) (spaces : List SpaceRef)
    (h1 : orgLookup orgName = .ok orgGUID)
    (h2 : listSpacesOf orgGUID = .ok spaces)
    (h3 : ∀ s ∈ spaces, s.name ≠ spaceName) :
    FindSpace true orgLookup listSpacesOf orgName spaceName =
      .ok { name := spaceName, guid := spaceName ++ "-dry-run-space-guid",
            organizationGuid := orgName ++ "-dry-run-org-guid" } ∧
    FindSpace false orgLookup listSpacesOf orgName spaceName =
      .error (.spaceNotFound spaceName orgName) ∧
    ListSpaceDevelopers true backend (spaceName ++ "-dry-run-space-guid") = (.ok [], []) := by
  have hfind : spaces.find? (fun s => s.name == spaceName) = none := by
    rw [List.find?_eq_none]
    intro s hs
    simpa using h3 s hs
  refine ⟨?_, ?_, ?_⟩
  · simp [FindSpace, h1, h2, hfind]
  · simp [FindSpace, h1, h2, hfind]
  · simp [ListSpaceDevelopers, goContains_space_suffix]

theorem C9_dry_run_placeholder_witness :
    FindSpace true (fun _ => .ok "og") (fun _ => .ok [{ name := "prod", guid := "pg", organizationGuid := "og" }]) "test-org" "qa" =
      .ok { name := "qa", guid := "qa" ++ "-dry-run-space-guid",
            organizationGuid := "test-org" ++ "-dry-run-org-guid" } ∧
    FindSpace false (fun _ => .ok "og") (fun _ => .ok [{ name := "prod", guid := "pg", organizationGuid := "og" }]) "test-org" "qa" =
      .error (.spaceNotFound "qa" "test-org") ∧
    ListSpaceDevelopers true (fun _ => .ok [("x", "1")]) ("qa" ++ "-dry-run-space-guid") = (.ok [], []) :=
  C9_dry_run_placeholder _ _ _ "test-org" "qa" "og" _ rfl rfl (by decide)

/-- Claim C10: placeholder detection is by substring and only under dry-run:
with the dry-run flag, any GUID containing the marker substring makes the
list return empty without a backend call; without the flag every list call
reaches the backend. -/
theorem C10_substring_shortcircuit
    (bs bo : String → Except Err (List (String × String))) (guid : String) :
    (goContains guid "dry-run-space-guid" = true →
      ListSpaceAuditors true bs guid = (.ok [], [])) ∧
    (ListSpaceAuditors false bs guid).2 = [Ev.backendList guid] ∧
    (goContains guid "dry-run-org-guid" = true →
      ListOrgAuditors true bo guid = (.ok [], [])) ∧
    (ListOrgAuditors false bo guid).2 = [Ev.backendList guid] := by
  refine ⟨fun h => by simp [ListSpaceAuditors, h], ?_, fun h => by simp [ListOrgAuditors, h], ?_⟩
  · unfold ListSpaceAuditors
    cases bs guid <;> simp
  · unfold ListOrgAuditors
    cases bo guid <;> simp

theorem C10_substring_shortcircuit_witness :
    ListSpaceAuditors true (fun _ => .ok [("x", "1")]) "dry-run-space-guid-zzz" = (.ok [], []) ∧
    (ListSpaceAuditors false (fun _ => .ok [("x", "1")]) "dry-run-space-guid-zzz").2 =
      [Ev.backendList "dry-run-space-guid-zzz"] ∧
    ListOrgAuditors true (fun _ => .ok []) "dry-run-org-guid-zzz" = (.ok [], []) ∧
    (ListOrgAuditors false (fun _ => .ok []) "dry-run-org-guid-zzz").2 =
      [Ev.backendList "dry-run-org-guid-zzz"] := by
  have h := C10_substring_shortcircuit (fun _ => .ok [("x", "1")]) (fun _ => .ok []) "dry-run-space-guid-zzz"
  have h2 := C10_substring_shortcircuit (fun _ => .ok [("x", "1")]) (fun _ => .ok []) "dry-run-org-guid-zzz"
  exact ⟨h.1 (by decide), h.2.1, h2.2.2.1 (by decide), h2.2.2.2⟩

/-- Claim C7: two-phase add — the org-association call precedes the
role-association call, the role call never happens without the org step
(which no-ops in dry-run), and an org-association failure prevents the
role call. -/
theorem C7_two_phase (peek : Bool) (assocOrgOk assocRoleOk : String → String → Bool)
    (input : UpdateUsersInput) (u : String) :
    (peek = true →
      AssociateSpaceDeveloper peek assocOrgOk assocRoleOk input u = (.ok (), []) ∧
      AssociateOrgAuditor peek assocOrgOk assocRoleOk input u = (.ok (), [])) ∧
    (peek = false → assocOrgOk input.orgGUID u = false →
      AssociateSpaceDeveloper peek assocOrgOk assocRoleOk input u =
        (.error (.orgAssocFailed u), [.assocOrg input.orgGUID u]) ∧
      AssociateOrgAuditor peek assocOrgOk assocRoleOk input u =
        (.error (.orgAssocFailed u), [.assocOrg input.orgGUID u])) ∧
    (peek = false → assocOrgOk input.orgGUID u = true →
      (AssociateSpaceDeveloper peek assocOrgOk assocRoleOk input u).2 =
        [.assocOrg input.orgGUID u, .assocRole input.spaceGUID u] ∧
      (AssociateOrgAuditor peek assocOrgOk assocRoleOk input u).2 =
        [.assocOrg input.orgGUID u, .assocRole input.orgGUID u]) := by
  refine ⟨fun hp => ?_, fun hp ho => ?_, fun hp ho => ?_⟩
  · subst hp
    exact ⟨rfl, rfl⟩
  · subst hp
    constructor <;> simp [AssociateSpaceDeveloper, AssociateOrgAuditor, AddUserToOrg, ho]
  · subst hp
    constructor <;>
      simp only [AssociateSpaceDeveloper, AssociateOrgAuditor, AddUserToOrg, ho] <;>
      cases hr : assocRoleOk input.spaceGUID u <;>
      cases hr2 : assocRoleOk input.orgGUID u <;>
      simp [hr, hr2]

theorem C7_two_phase_witness :
    (AssociateSpaceDeveloper false (fun _ _ => true) (fun _ _ => true) baseInput "alice").2 =
      [.assocOrg baseInput.orgGUID "alice", .assocRole baseInput.spaceGUID "alice"] ∧
    AssociateSpaceDeveloper false (fun _ _ => false) (fun _ _ => true) baseInput "alice" =
      (.error (.orgAssocFailed "alice"), [.assocOrg baseInput.orgGUID "alice"]) ∧
    AssociateSpaceDeveloper true (fun _ _ => true) (fun _ _ => true) baseInput "alice" = (.ok (), []) :=
  ⟨((C7_two_phase false (fun _ _ => true) (fun _ _ => true) baseInput "alice").2.2 rfl rfl).1,
   ((C7_two_phase false (fun _ _ => false) (fun _ _ => true) baseInput "alice").2.1 rfl rfl).1,
   ((C7_two_phase true (fun _ _ => true) (fun _ _ => true) baseInput "alice").1 rfl).1⟩

/-- Claim C1: the cleanup pass evaluated where dev holds exactly one role —
space developer of the org's only space.  The claim (and spec §4.2) says the
kept set is the union including space developers, so dev must be kept; the
code (src/main.go:1031 reuses `ListSpaceAuditors` where the developer
listing was intended) removes dev from the org. -/
theorem C1_cleanup_removes_space_developer :
    bC1.spaceDevelopersB "sg" = .ok [("dev", "g1")] ∧
    bC1.spaceAuditorsB "sg" = .ok [] ∧
    bC1.orgUsersB "og" = .ok [("dev", "gdev")] ∧
    cleanupOrgUsers false bC1 findOrgO cfgOptIn =
      (.ok (), [.listOrgUsers "og", .removeOrgUser "og" "dev"]) :=
  ⟨rfl, rfl, rfl, rfl⟩

theorem cleanupOrgUsers_depends_only_on_org (peek : Bool) (b : CleanupBackend)
    (findOrg : String → Except Err OrgRef) (a c : OrgConfig) (h : a.org = c.org) :
    cleanupOrgUsers peek b findOrg a = cleanupOrgUsers peek b findOrg c := by
  cases a
  cases c
  simp only at h
  subst h
  rfl

/-- Claim C4 (amended): the cleanup pass runs for every configured org and
depends only on the configured org names — no per-org flag (in particular
no opt-in flag) influences whether an org's membership is listed and
cleaned. -/
theorem C4_cleanup_ignores_flags (peek : Bool) (b : CleanupBackend)
    (findOrg : String → Except Err OrgRef) :
    ∀ (cfgs cfgs2 : List OrgConfig),
      cfgs.map OrgConfig.org = cfgs2.map OrgConfig.org →
      CleanupOrgUsers peek b findOrg cfgs = CleanupOrgUsers peek b findOrg cfgs2 := by
  intro cfgs
  induction cfgs with
  | nil =>
    intro cfgs2 h
    cases cfgs2 with
    | nil => rfl
    | cons c l => simp at h
  | cons a l ih =>
    intro cfgs2 h
    cases cfgs2 with
    | nil => simp at h
    | cons c l2 =>
      simp only [List.map_cons, List.cons.injEq] at h
      rw [CleanupOrgUsers, CleanupOrgUsers,
        cleanupOrgUsers_depends_only_on_org peek b findOrg a c h.1, ih l2 h.2]

theorem C4_cleanup_ignores_flags_witness :
    CleanupOrgUsers false bC4 findOrgO [cfgNoOptIn] =
      CleanupOrgUsers false bC4 findOrgO [cfgOptIn] :=
  C4_cleanup_ignores_flags false bC4 findOrgO [cfgNoOptIn] [cfgOptIn] rfl

/-- Claim C4 counterexample: an org configured without the opt-in flag still
has its membership listed, and bob (holding no role) removed, by the
cleanup pass. -/
theorem C4_counterexample :
    cfgNoOptIn.removeUsers = false ∧
    CleanupOrgUsers false bC4 findOrgO [cfgNoOptIn] =
      (.ok (), [.listOrgUsers "og", .removeOrgUser "og" "bob"]) :=
  ⟨rfl, rfl⟩

/-- Claim C2 counterexample: a run of two reconciliations starting from an
empty UAA snapshot; the first provisions the federated principal sam@x,
and the second observes a UAA map different from the map as loaded. -/
theorem C2_counterexample :
    (runSpaceReconciliations envOK noGroups
        [(inputSam, .ok []), (baseInput, .ok [])] []).2.2.1 =
      [[], [("sam@x", samUser "sam@x")]] ∧
    ([("sam@x", samUser "sam@x")] : UAAMap) ≠ [] :=
  ⟨rfl, by decide⟩

/-- Claim C3 counterexample: with one principal of each desired source and
empty current membership, the trace of one reconciliation starts with the
add for the group-resolved member gina, before the internal add for ivan
and the SAML events for sam@x — so the sources are not processed
internal-first. -/
theorem C3_counterexample :
    (SyncUsers envOK resolverG (.ok []) uaaGinaIvan inputC3).2.2 =
      [.addUser "gina", .addUser "ivan", .provision "sam@x", .addUser "sam@x"] ∧
    resolveGroups resolverG inputC3.ldapGroupNames = .ok ["gina"] ∧
    inputC3.users = ["ivan"] ∧
    "gina" ∉ inputC3.users :=
  ⟨rfl, rfl, rfl, by decide⟩

/-- Claim C6 counterexample: the configuration lists the same principal
twice (alice, ALICE); the current membership (alice alone) satisfies it —
every desired principal is present under its case-folded name and there is
no extraneous member — yet reconciliation issues an add call. -/
theorem C6_counterexample :
    (∀ u ∈ inputC6.users, (mapLookup ruAlice (strToLower u)).isSome = true) ∧
    (∀ p ∈ ruAlice, p.1 ∈ inputC6.users.map strToLower) ∧
    inputC6.samlUsers = [] ∧ inputC6.ldapGroupNames = [] ∧
    (SyncUsers envOK noGroups (.ok ruAlice) uaaAlice inputC6).2.2 = [.addUser "ALICE"] :=
  ⟨by decide, by decide, rfl, rfl, rfl⟩

theorem mapLookup_mapErase (m : List (String × α)) (k k2 : String) :
    mapLookup (mapErase m k) k2 = if k2 = k then none else mapLookup m k2 := by
  induction m with
  | nil => simp [mapErase, mapLookup]
  | cons p rest ih =>
    obtain ⟨a, v⟩ := p
    by_cases hak : a = k <;> by_cases h2 : a = k2 <;>
      simp_all [mapLookup, mapErase, List.filter_cons]

theorem eraseAll_cons (m : List (String × α)) (k : String) (ks : List String) :
    eraseAll m (k :: ks) = eraseAll (mapErase m k) ks := rfl

theorem mapLookup_eraseAll (ks : List String) (m : List (String × α)) (k : String) :
    mapLookup (eraseAll m ks) k = if k ∈ ks then none else mapLookup m k := by
  induction ks generalizing m with
  | nil => simp [eraseAll]
  | cons a ks ih =>
    rw [eraseAll_cons, ih, mapLookup_mapErase]
    by_cases hka : k = a <;> by_cases hk : k ∈ ks <;> simp [hka, hk]

theorem eraseAll_eq_nil (ks : List String) :
    ∀ m : List (String × α), (∀ p ∈ m, p.1 ∈ ks) → eraseAll m ks = [] := by
  induction ks with
  | nil =>
    intro m h
    cases m with
    | nil => rfl
    | cons p rest => exact absurd (h p (by simp)) (by simp)
  | cons a ks ih =>
    intro m h
    rw [eraseAll_cons]
    apply ih
    intro p hp
    have hpm : p ∈ m ∧ p.1 ≠ a := by simpa [mapErase] using hp
    rcases List.mem_cons.mp (h p hpm.1) with h3 | h3
    · exact absurd h3 hpm.2
    · exact h3

theorem eraseAll_append (m : List (String × α)) (ks ls : List String) :
    eraseAll m (ks ++ ls) = eraseAll (eraseAll m ks) ls := by
  simp [eraseAll, List.foldl_append]

theorem SyncInternalUsers_events (env : SyncEnv) (uaa : UAAMap) :
    ∀ (users : List String) (ru : RoleUsers) (ev : Ev),
      ev ∈ (SyncInternalUsers env uaa users ru).2.2 → ∃ w, ev = Ev.addUser w := by
  intro users
  induction users with
  | nil => intro ru ev h; simp [SyncInternalUsers] at h
  | cons u rest ih =>
    intro ru ev h
    cases hu : mapLookup uaa (strToLower u) with
    | none => simp [SyncInternalUsers, hu] at h
    | some _ =>
      cases hr : mapLookup ru (strToLower u) with
      | none =>
        cases ha : env.addOk u with
        | true =>
          simp [SyncInternalUsers, hu, hr, ha] at h
          rcases h with h | h
          · exact ⟨u, h⟩
          · exact ih ru ev h
        | false =>
          simp [SyncInternalUsers, hu, hr, ha] at h
          exact ⟨u, h⟩
      | some _ =>
        simp only [SyncInternalUsers, hu, hr] at h
        exact ih _ ev h

theorem samlOne_events (env : SyncEnv) (uaa : UAAMap) (ru : RoleUsers) (e : String) (ev : Ev)
    (h : ev ∈ (samlOne env uaa ru e).2.2.2) : ev = Ev.provision e ∨ ev = Ev.addUser e := by
  cases hu : mapLookup uaa (strToLower e) with
  | some v =>
    cases hr : mapLookup ru (strToLower e) with
    | none => cases ha : env.addOk e <;> simp_all [samlOne, hu, hr, ha]
    | some _ => simp_all [samlOne, hu, hr]
  | none =>
    cases hp : env.provisionOk e with
    | true =>
      cases hr : mapLookup ru (strToLower e) with
      | none => cases ha : env.addOk e <;> simp_all [samlOne, hu, hp, hr, ha]
      | some _ => simp_all [samlOne, hu, hp, hr]
    | false => simp_all [samlOne, hu, hp]

theorem samlOne_trace_cases (env : SyncEnv) (uaa : UAAMap) (ru : RoleUsers) (e : String) :
    (samlOne env uaa ru e).2.2.2 = [] ∨
    (samlOne env uaa ru e).2.2.2 = [Ev.provision e] ∨
    (samlOne env uaa ru e).2.2.2 = [Ev.addUser e] ∨
    (samlOne env uaa ru e).2.2.2 = [Ev.provision e, Ev.addUser e] := by
  cases hu : mapLookup uaa (strToLower e) with
  | some v =>
    cases hr : mapLookup ru (strToLower e) with
    | none => cases ha : env.addOk e <;> simp [samlOne, hu, hr, ha]
    | some _ => simp [samlOne, hu, hr]
  | none =>
    cases hp : env.provisionOk e with
    | true =>
      cases hr : mapLookup ru (strToLower e) with
      | none => cases ha : env.addOk e <;> simp [samlOne, hu, hp, hr, ha]
      | some _ => simp [samlOne, hu, hp, hr]
    | false => simp [samlOne, hu, hp]

theorem SyncSamlUsers_events (env : SyncEnv) :
    ∀ (users : List String) (uaa : UAAMap) (ru : RoleUsers) (ev : Ev),
      ev ∈ (SyncSamlUsers env uaa users ru).2.2.2 →
      ∃ w ∈ users, ev = Ev.provision w ∨ ev = Ev.addUser w := by
  intro users
  induction users with
  | nil => intro uaa ru ev h; simp [SyncSamlUsers] at h
  | cons v rest ih =>
    intro uaa ru ev h
    cases ho : (samlOne env uaa ru v).1 with
    | some err =>
      simp only [SyncSamlUsers, ho] at h
      exact ⟨v, by simp, samlOne_events env uaa ru v ev h⟩
    | none =>
      simp only [SyncSamlUsers, ho, List.mem_append] at h
      rcases h with h | h
      · exact ⟨v, by simp, samlOne_events env uaa ru v ev h⟩
      · obtain ⟨w, hw, hew⟩ := ih _ _ ev h
        exact ⟨w, by simp [hw], hew⟩

theorem SyncLdapUsers_events (env : SyncEnv) (resolver : String → Option (List String))
    (uaa : UAAMap) (groupNames : List String) (ru : RoleUsers) (ev : Ev)
    (h : ev ∈ (SyncLdapUsers env resolver uaa groupNames ru).2.2) :
    ∃ w, ev = Ev.addUser w := by
  cases hg : resolveGroups resolver groupNames with
  | error e => simp [SyncLdapUsers, hg] at h
  | ok members =>
    simp only [SyncLdapUsers, hg] at h
    exact SyncInternalUsers_events env uaa members ru ev h

/-- Claim C5: when the desired membership has RemoveUsers false, the
removal stage performs nothing, and no remove call appears anywhere in the
reconciliation's trace, whatever the computed extraneous set is. -/
theorem C5_removal_gating (env : SyncEnv) (resolver : String → Option (List String))
    (listResult : Except Err RoleUsers) (uaa : UAAMap) (input : UpdateUsersInput)
    (ru : RoleUsers) (u : String) (hflag : input.removeUsers = false) :
    RemoveUsers env input ru = (.ok (), []) ∧
    Ev.removeUser u ∉ (SyncUsers env resolver listResult uaa input).2.2 := by
  have hrm : ∀ ru2 : RoleUsers, RemoveUsers env input ru2 = (.ok (), []) := by
    intro ru2
    simp [RemoveUsers, hflag]
  refine ⟨hrm ru, ?_⟩
  intro hmem
  cases listResult with
  | error e => simp [SyncUsers] at hmem
  | ok ru0 =>
    simp only [SyncUsers] at hmem
    cases hL : (SyncLdapUsers env resolver uaa input.ldapGroupNames ru0).1 with
    | error e =>
      rw [hL] at hmem
      simp only [List.mem_append] at hmem
      obtain ⟨w, hw⟩ := SyncLdapUsers_events env resolver uaa input.ldapGroupNames ru0 _ hmem
      exact Ev.noConfusion hw
    | ok _ =>
      rw [hL] at hmem
      cases hI : (SyncInternalUsers env uaa input.users
          (SyncLdapUsers env resolver uaa input.ldapGroupNames ru0).2.1).1 with
      | error e =>
        rw [hI] at hmem
        simp only [List.mem_append] at hmem
        rcases hmem with h | h
        · obtain ⟨w, hw⟩ := SyncLdapUsers_events env resolver uaa input.ldapGroupNames ru0 _ h
          exact Ev.noConfusion hw
        · obtain ⟨w, hw⟩ := SyncInternalUsers_events env uaa _ _ _ h
          exact Ev.noConfusion hw
      | ok _ =>
        rw [hI] at hmem
        cases hS : (SyncSamlUsers env uaa input.samlUsers
            (SyncInternalUsers env uaa input.users
              (SyncLdapUsers env resolver uaa input.ldapGroupNames ru0).2.1).2.1).1 with
        | error e =>
          rw [hS] at hmem
          simp only [List.mem_append] at hmem
          rcases hmem with (h | h) | h
          · obtain ⟨w, hw⟩ := SyncLdapUsers_events env resolver uaa input.ldapGroupNames ru0 _ h
            exact Ev.noConfusion hw
          · obtain ⟨w, hw⟩ := SyncInternalUsers_events env uaa _ _ _ h
            exact Ev.noConfusion hw
          · obtain ⟨w, _, hw | hw⟩ := SyncSamlUsers_events env _ _ _ _ h
            · exact Ev.noConfusion hw
            · exact Ev.noConfusion hw
        | ok _ =>
          rw [hS] at hmem
          simp only [hrm, List.append_nil, List.mem_append] at hmem
          rcases hmem with (h | h) | h
          · obtain ⟨w, hw⟩ := SyncLdapUsers_events env resolver uaa input.ldapGroupNames ru0 _ h
            exact Ev.noConfusion hw
          · obtain ⟨w, hw⟩ := SyncInternalUsers_events env uaa _ _ _ h
            exact Ev.noConfusion hw
          · obtain ⟨w, _, hw | hw⟩ := SyncSamlUsers_events env _ _ _ _ h
            · exact Ev.noConfusion hw
            · exact Ev.noConfusion hw

theorem C5_removal_gating_witness :
    RemoveUsers envOK baseInput ruAlice = (.ok (), []) ∧
    Ev.removeUser "alice" ∉ (SyncUsers envOK noGroups (.ok ruAlice) uaaAlice baseInput).2.2 :=
  C5_removal_gating envOK noGroups (.ok ruAlice) uaaAlice baseInput ruAlice "alice" rfl

theorem SyncInternalUsers_satisfied (env : SyncEnv) (uaa : UAAMap) :
    ∀ (users : List String) (ru : RoleUsers),
      (users.map strToLower).Nodup →
      (∀ u ∈ users, (mapLookup uaa (strToLower u)).isSome = true) →
      (∀ u ∈ users, (mapLookup ru (strToLower u)).isSome = true) →
      SyncInternalUsers env uaa users ru =
        (.ok (), eraseAll ru (users.map strToLower), []) := by
  intro users
  induction users with
  | nil =>
    intro ru h1 h2 h3
    simp [SyncInternalUsers, eraseAll]
  | cons u rest ih =>
    intro ru h1 h2 h3
    obtain ⟨vu, hvu⟩ := Option.isSome_iff_exists.mp (h2 u (by simp))
    obtain ⟨vr, hvr⟩ := Option.isSome_iff_exists.mp (h3 u (by simp))
    rw [List.map_cons] at h1
    obtain ⟨hnotin, htail⟩ := List.nodup_cons.mp h1
    have hrec := ih (mapErase ru (strToLower u)) htail
      (fun v hv => h2 v (by simp [hv]))
      (fun v hv => by
        rw [mapLookup_mapErase]
        have hne : strToLower v ≠ strToLower u := by
          intro hEq
          exact hnotin (by rw [← hEq]; exact List.mem_map_of_mem strToLower hv)
        rw [if_neg hne]
        exact h3 v (by simp [hv]))
    simp only [SyncInternalUsers, hvu, hvr]
    rw [hrec]
    rfl

theorem SyncSamlUsers_satisfied (env : SyncEnv) :
    ∀ (users : List String) (uaa : UAAMap) (ru : RoleUsers),
      (users.map strToLower).Nodup →
      (∀ u ∈ users, (mapLookup uaa (strToLower u)).isSome = true) →
      (∀ u ∈ users, (mapLookup ru (strToLower u)).isSome = true) →
      SyncSamlUsers env uaa users ru =
        (.ok (), uaa, eraseAll ru (users.map strToLower), []) := by
  intro users
  induction users with
  | nil =>
    intro uaa ru h1 h2 h3
    simp [SyncSamlUsers, eraseAll]
  | cons u rest ih =>
    intro uaa ru h1 h2 h3
    obtain ⟨vu, hvu⟩ := Option.isSome_iff_exists.mp (h2 u (by simp))
    obtain ⟨vr, hvr⟩ := Option.isSome_iff_exists.mp (h3 u (by simp))
    rw [List.map_cons] at h1
    obtain ⟨hnotin, htail⟩ := List.nodup_cons.mp h1
    have hone : samlOne env uaa ru u = (none, uaa, mapErase ru (strToLower u), []) := by
      simp [samlOne, hvu, hvr]
    have hrec := ih uaa (mapErase ru (strToLower u)) htail
      (fun v hv => h2 v (by simp [hv]))
      (fun v hv => by
        rw [mapLookup_mapErase]
        have hne : strToLower v ≠ strToLower u := by
          intro hEq
          exact hnotin (by rw [← hEq]; exact List.mem_map_of_mem strToLower hv)
        rw [if_neg hne]
        exact h3 v (by simp [hv]))
    simp only [SyncSamlUsers, hone]
    rw [hrec]
    rfl

theorem RemoveUsers_empty (env : SyncEnv) (input : UpdateUsersInput) :
    RemoveUsers env input [] = (.ok (), []) := by
  cases h : input.removeUsers <;> simp [RemoveUsers, h, removeAll]

/-- Claim C6 (amended): reconciliation is idempotent provided the desired
principals are pairwise distinct after case folding and each desired
principal's identity exists in the UAA snapshot: when every desired
principal is present in the current membership under its case-folded name
and there is no extraneous member, the engine issues no call at all
(empty trace) and leaves the UAA snapshot unchanged. -/
theorem C6_idempotence (env : SyncEnv) (resolver : String → Option (List String))
    (uaa : UAAMap) (input : UpdateUsersInput) (ru : RoleUsers) (members : List String)
    (hg : resolveGroups resolver input.ldapGroupNames = .ok members)
    (hnodup : ((members ++ input.users ++ input.samlUsers).map strToLower).Nodup)
    (huaa : ∀ u ∈ members ++ input.users ++ input.samlUsers,
      (mapLookup uaa (strToLower u)).isSome = true)
    (hpresent : ∀ u ∈ members ++ input.users ++ input.samlUsers,
      (mapLookup ru (strToLower u)).isSome = true)
    (hnoextra : ∀ p ∈ ru, p.1 ∈ (members ++ input.users ++ input.samlUsers).map strToLower) :
    SyncUsers env resolver (.ok ru) uaa input = (.ok (), uaa, []) := by
  have hsplit := hnodup
  rw [List.map_append, List.map_append] at hsplit
  obtain ⟨h12, hsN, hdisj3⟩ := List.nodup_append.mp hsplit
  obtain ⟨hmN, huN, hdisj2⟩ := List.nodup_append.mp h12
  have hL : SyncLdapUsers env resolver uaa input.ldapGroupNames ru =
      (.ok (), eraseAll ru (members.map strToLower), []) := by
    simp only [SyncLdapUsers, hg]
    exact SyncInternalUsers_satisfied env uaa members ru hmN
      (fun v hv => huaa v (by simp [hv]))
      (fun v hv => hpresent v (by simp [hv]))
  have hI : SyncInternalUsers env uaa input.users (eraseAll ru (members.map strToLower)) =
      (.ok (), eraseAll ru ((members ++ input.users).map strToLower), []) := by
    have := SyncInternalUsers_satisfied env uaa input.users
      (eraseAll ru (members.map strToLower)) huN
      (fun v hv => huaa v (by simp [hv]))
      (fun v hv => by
        rw [mapLookup_eraseAll]
        have hnm : strToLower v ∉ members.map strToLower :=
          fun hmem => hdisj2 hmem (List.mem_map_of_mem strToLower hv)
        rw [if_neg hnm]
        exact hpresent v (by simp [hv]))
    rw [this, List.map_append, eraseAll_append]
  have hS : SyncSamlUsers env uaa input.samlUsers
      (eraseAll ru ((members ++ input.users).map strToLower)) =
      (.ok (), uaa, eraseAll ru ((members ++ input.users ++ input.samlUsers).map strToLower), []) := by
    have := SyncSamlUsers_satisfied env input.samlUsers uaa
      (eraseAll ru ((members ++ input.users).map strToLower)) hsN
      (fun v hv => huaa v (by simp [hv]))
      (fun v hv => by
        rw [mapLookup_eraseAll]
        have hnm : strToLower v ∉ (members ++ input.users).map strToLower := by
          rw [List.map_append]
          exact fun hmem => hdisj3 hmem (List.mem_map_of_mem strToLower hv)
        rw [if_neg hnm]
        exact hpresent v (by simp [hv]))
    rw [this, List.map_append strToLower (members ++ input.users) input.samlUsers,
      eraseAll_append]
  have hru3 : eraseAll ru ((members ++ input.users ++ input.samlUsers).map strToLower) = [] :=
    eraseAll_eq_nil _ ru hnoextra
  rw [hru3] at hS
  simp only [SyncUsers, hL, hI, hS, RemoveUsers_empty]
  rfl

theorem C6_idempotence_witness :
    SyncUsers envOK resolverG
      (.ok [("gina", "1"), ("ivan", "2"), ("sam@x", "3")])
      [("gina", samUser "gina"), ("ivan", samUser "ivan"), ("sam@x", samUser "sam@x")]
      inputC3 =
      (.ok (), [("gina", samUser "gina"), ("ivan", samUser "ivan"), ("sam@x", samUser "sam@x")], []) :=
  C6_idempotence envOK resolverG _ inputC3 _ ["gina"] rfl (by decide) (by decide)
    (by decide) (by decide)

theorem SyncSamlUsers_uaa_preserved (env : SyncEnv) :
    ∀ (users : List String) (uaa : UAAMap) (ru : RoleUsers),
      (∀ u ∈ users, (mapLookup uaa (strToLower u)).isSome = true) →
      (SyncSamlUsers env uaa users ru).2.1 = uaa := by
  intro users
  induction users with
  | nil =>
    intro uaa ru h
    simp [SyncSamlUsers]
  | cons u rest ih =>
    intro uaa ru h
    obtain ⟨vu, hvu⟩ := Option.isSome_iff_exists.mp (h u (by simp))
    cases hr : mapLookup ru (strToLower u) with
    | none =>
      cases ha : env.addOk u with
      | true =>
        have hone : samlOne env uaa ru u = (none, uaa, ru, [Ev.addUser u]) := by
          simp [samlOne, hvu, hr, ha]
        simp only [SyncSamlUsers, hone]
        exact ih uaa ru (fun v hv => h v (by simp [hv]))
      | false =>
        have hone : samlOne env uaa ru u =
            (some (.addFailed u), uaa, ru, [Ev.addUser u]) := by
          simp [samlOne, hvu, hr, ha]
        simp [SyncSamlUsers, hone]
    | some _ =>
      have hone : samlOne env uaa ru u = (none, uaa, mapErase ru (strToLower u), []) := by
        simp [samlOne, hvu, hr]
      simp only [SyncSamlUsers, hone]
      exact ih uaa _ (fun v hv => h v (by simp [hv]))

theorem SyncUsers_uaa_preserved (env : SyncEnv) (resolver : String → Option (List String))
    (listResult : Except Err RoleUsers) (uaa : UAAMap) (input : UpdateUsersInput)
    (h : ∀ u ∈ input.samlUsers, (mapLookup uaa (strToLower u)).isSome = true) :
    (SyncUsers env resolver listResult uaa input).2.1 = uaa := by
  cases listResult with
  | error e => simp [SyncUsers]
  | ok ru0 =>
    simp only [SyncUsers]
    cases hL : (SyncLdapUsers env resolver uaa input.ldapGroupNames ru0).1 with
    | error e => simp
    | ok _ =>
      cases hI : (SyncInternalUsers env uaa input.users
          (SyncLdapUsers env resolver uaa input.ldapGroupNames ru0).2.1).1 with
      | error e => simp
      | ok _ =>
        have hp := SyncSamlUsers_uaa_preserved env input.samlUsers uaa
          (SyncInternalUsers env uaa input.users
            (SyncLdapUsers env resolver uaa input.ldapGroupNames ru0).2.1).2.1 h
        cases hS : (SyncSamlUsers env uaa input.samlUsers
            (SyncInternalUsers env uaa input.users
              (SyncLdapUsers env resolver uaa input.ldapGroupNames ru0).2.1).2.1).1 with
        | error e => simpa using hp
        | ok _ => simpa using hp

/-- Claim C2 (amended): the UAA snapshot is loaded once and the same map
object is passed through the whole run; it is unchanged — and every
reconciliation observes the map as loaded — whenever no federated
provisioning occurs (every configured SAML principal already present in
the snapshot).  When provisioning does occur, the shared map is mutated in
place and later reconciliations observe the mutated map
(see the counterexample). -/
theorem C2_directory_sharing (env : SyncEnv) (resolver : String → Option (List String)) :
    ∀ (recs : List (UpdateUsersInput × Except Err RoleUsers)) (uaa0 : UAAMap),
      (∀ p ∈ recs, ∀ u ∈ (p : UpdateUsersInput × Except Err RoleUsers).1.samlUsers,
        (mapLookup uaa0 (strToLower u)).isSome = true) →
      (runSpaceReconciliations env resolver recs uaa0).2.1 = uaa0 ∧
      ∀ m ∈ (runSpaceReconciliations env resolver recs uaa0).2.2.1, m = uaa0 := by
  intro recs
  induction recs with
  | nil =>
    intro uaa0 h
    simp [runSpaceReconciliations]
  | cons item rest ih =>
    intro uaa0 h
    have hp := SyncUsers_uaa_preserved env resolver item.2 uaa0 item.1
      (h item (by simp))
    cases hr : (SyncUsers env resolver item.2 uaa0 item.1).1 with
    | error e =>
      simp only [runSpaceReconciliations, hr]
      constructor
      · simpa using hp
      · intro m hm
        simpa using hm
    | ok _ =>
      have hrest := ih uaa0 (fun p hp2 => h p (by simp [hp2]))
      simp only [runSpaceReconciliations, hr]
      constructor
      · rw [hp]
        exact hrest.1
      · intro m hm
        rw [hp] at hm
        simp only [List.mem_cons] at hm
        rcases hm with hm | hm
        · exact hm
        · exact hrest.2 m hm

theorem C2_directory_sharing_witness :
    (runSpaceReconciliations envOK noGroups [(inputSam, .ok []), (baseInput, .ok [])] uaaSam).2.1 =
      uaaSam ∧
    ∀ m ∈ (runSpaceReconciliations envOK noGroups
        [(inputSam, .ok []), (baseInput, .ok [])] uaaSam).2.2.1, m = uaaSam :=
  C2_directory_sharing envOK noGroups [(inputSam, .ok []), (baseInput, .ok [])] uaaSam
    (by decide)

theorem mapLookup_mapInsert (m : List (String × α)) (k k2 : String) (v : α) :
    mapLookup (mapInsert m k v) k2 = if k2 = k then some v else mapLookup m k2 := by
  induction m with
  | nil =>
    by_cases h : k2 = k
    · simp [mapInsert, mapLookup, h]
    · have h2 : ¬ (k = k2) := fun hh => h hh.symm
      simp [mapInsert, mapLookup, h, h2]
  | cons p rest ih =>
    obtain ⟨a, w⟩ := p
    by_cases hak : a = k <;> by_cases h2 : a = k2 <;> by_cases h3 : k2 = k <;>
      simp_all [mapInsert, mapLookup]

theorem samlOne_uaa_mono (env : SyncEnv) (uaa : UAAMap) (ru : RoleUsers) (e k : String)
    (h : (mapLookup uaa k).isSome = true) :
    (mapLookup (samlOne env uaa ru e).2.1 k).isSome = true := by
  cases hu : mapLookup uaa (strToLower e) with
  | some v =>
    cases hr : mapLookup ru (strToLower e) with
    | none => cases ha : env.addOk e <;> simp_all [samlOne, hu, hr, ha]
    | some _ => simp_all [samlOne, hu, hr]
  | none =>
    cases hp : env.provisionOk e with
    | true =>
      cases hr : mapLookup ru (strToLower e) with
      | none =>
        by_cases hk : k = e <;> cases ha : env.addOk e <;>
          simp_all [samlOne, hu, hp, hr, ha, mapLookup_mapInsert, hk]
      | some _ =>
        by_cases hk : k = e <;>
          simp_all [samlOne, hu, hp, hr, mapLookup_mapInsert, hk]
    | false => simp_all [samlOne, hu, hp]

theorem samlOne_no_prov_if_present (env : SyncEnv) (uaa : UAAMap) (ru : RoleUsers)
    (e : String) (h : (mapLookup uaa (strToLower e)).isSome = true) :
    Ev.provision e ∉ (samlOne env uaa ru e).2.2.2 := by
  obtain ⟨v, hv⟩ := Option.isSome_iff_exists.mp h
  cases hr : mapLookup ru (strToLower e) with
  | none => cases ha : env.addOk e <;> simp [samlOne, hv, hr, ha]
  | some _ => simp [samlOne, hv, hr]

theorem SyncSamlUsers_no_prov_if_present (env : SyncEnv) :
    ∀ (users : List String) (uaa : UAAMap) (ru : RoleUsers) (u : String),
      (mapLookup uaa (strToLower u)).isSome = true →
      Ev.provision u ∉ (SyncSamlUsers env uaa users ru).2.2.2 := by
  intro users
  induction users with
  | nil =>
    intro uaa ru u h hmem
    simp [SyncSamlUsers] at hmem
  | cons v rest ih =>
    intro uaa ru u h hmem
    cases ho : (samlOne env uaa ru v).1 with
    | some err =>
      simp only [SyncSamlUsers, ho] at hmem
      rcases samlOne_events env uaa ru v _ hmem with h2 | h2
      · injection h2 with h3
        subst h3
        exact samlOne_no_prov_if_present env uaa ru _ h hmem
      · exact Ev.noConfusion h2
    | none =>
      simp only [SyncSamlUsers, ho, List.mem_append] at hmem
      rcases hmem with h1 | h1
      · rcases samlOne_events env uaa ru v _ h1 with h2 | h2
        · injection h2 with h3
          subst h3
          exact samlOne_no_prov_if_present env uaa ru _ h h1
        · exact Ev.noConfusion h2
      · exact ih _ _ u (samlOne_uaa_mono env uaa ru v (strToLower u) h) h1

theorem SyncSamlUsers_prov_before_add (env : SyncEnv) :
    ∀ (users : List String) (uaa : UAAMap) (ru : RoleUsers) (u : String),
      Ev.provision u ∈ (SyncSamlUsers env uaa users ru).2.2.2 →
      Ev.addUser u ∈ (SyncSamlUsers env uaa users ru).2.2.2 →
      occursBefore (Ev.provision u) (Ev.addUser u) (SyncSamlUsers env uaa users ru).2.2.2 := by
  intro users
  induction users with
  | nil =>
    intro uaa ru u hp ha
    simp [SyncSamlUsers] at hp
  | cons v rest ih =>
    intro uaa ru u hp ha
    cases ho : (samlOne env uaa ru v).1 with
    | some err =>
      simp only [SyncSamlUsers, ho] at hp ha ⊢
      have hu : u = v := by
        rcases samlOne_events env uaa ru v _ hp with h | h
        · injection h
        · exact Ev.noConfusion h
      subst hu
      rcases samlOne_trace_cases env uaa ru u with h | h | h | h <;>
        rw [h] at hp ha ⊢ <;> simp_all
      exact ⟨[], [], [], rfl⟩
    | none =>
      simp only [SyncSamlUsers, ho] at hp ha ⊢
      rcases List.mem_append.mp hp with hpb | hpr
      · have huv : u = v := by
          rcases samlOne_events env uaa ru v _ hpb with h2 | h2
          · injection h2
          · exact Ev.noConfusion h2
        subst huv
        rcases samlOne_trace_cases env uaa ru u with hb | hb | hb | hb
        · rw [hb] at hpb
          simp at hpb
        · have ha2 : Ev.addUser u ∈ (SyncSamlUsers env (samlOne env uaa ru u).2.1 rest
              (samlOne env uaa ru u).2.2.1).2.2.2 := by
            rcases List.mem_append.mp ha with h | h
            · rw [hb] at h
              simp at h
            · exact h
          obtain ⟨s, t, hst⟩ := List.append_of_mem ha2
          refine ⟨[], s, t, ?_⟩
          rw [hb, hst]
          simp
        · rw [hb] at hpb
          simp at hpb
        · refine ⟨[], [], (SyncSamlUsers env (samlOne env uaa ru u).2.1 rest
            (samlOne env uaa ru u).2.2.1).2.2.2, ?_⟩
          rw [hb]
          rfl
      · rcases List.mem_append.mp ha with hab | har
        · have huv : u = v := by
            rcases samlOne_events env uaa ru v _ hab with h2 | h2
            · exact Ev.noConfusion h2
            · injection h2
          subst huv
          cases hu : mapLookup uaa (strToLower u) with
          | some w =>
            exact absurd hpr (SyncSamlUsers_no_prov_if_present env rest _ _ u
              (samlOne_uaa_mono env uaa ru u (strToLower u) (by simp [hu])))
          | none =>
            cases hpv : env.provisionOk u with
            | false =>
              have hb : (samlOne env uaa ru u).2.2.2 = [Ev.provision u] := by
                simp [samlOne, hu, hpv]
              rw [hb] at hab
              simp at hab
            | true =>
              cases hr : mapLookup ru (strToLower u) with
              | some _ =>
                have hb : (samlOne env uaa ru u).2.2.2 = [Ev.provision u] := by
                  simp [samlOne, hu, hpv, hr]
                rw [hb] at hab
                simp at hab
              | none =>
                cases ha3 : env.addOk u with
                | false =>
                  have hcontra : (samlOne env uaa ru u).1 = some (.addFailed u) := by
                    simp [samlOne, hu, hpv, hr, ha3]
                  rw [ho] at hcontra
                  exact Option.noConfusion hcontra
                | true =>
                  have hb : (samlOne env uaa ru u).2.2.2 =
                      [Ev.provision u, Ev.addUser u] := by
                    simp [samlOne, hu, hpv, hr, ha3]
                  refine ⟨[], [], (SyncSamlUsers env (samlOne env uaa ru u).2.1 rest
                    (samlOne env uaa ru u).2.2.1).2.2.2, ?_⟩
                  rw [hb]
                  rfl
        · obtain ⟨l, m, r, hlmr⟩ := ih _ _ u hpr har
          exact ⟨(samlOne env uaa ru v).2.2.2 ++ l, m, r, by rw [hlmr]; simp⟩

/-- Claim C3 (amended): within one reconciliation the desired-membership
sources are processed in the order LDAP-group users, then internal users,
then federated (SAML) users — the trace is the concatenation of the three
stage traces in that order, followed by the removal stage — and for a
federated principal needing provisioning, the provisioning side-effect
happens before the add call for that same principal. -/
theorem C3_source_order (env : SyncEnv) (resolver : String → Option (List String))
    (uaa uaa3 : UAAMap) (ru ru1 ru2 ru3 : RoleUsers) (input : UpdateUsersInput)
    (t1 t2 t3 : List Ev)
    (hL : SyncLdapUsers env resolver uaa input.ldapGroupNames ru = (.ok (), ru1, t1))
    (hI : SyncInternalUsers env uaa input.users ru1 = (.ok (), ru2, t2))
    (hS : SyncSamlUsers env uaa input.samlUsers ru2 = (.ok (), uaa3, ru3, t3)) :
    SyncUsers env resolver (.ok ru) uaa input =
      ((RemoveUsers env input ru3).1, uaa3,
        t1 ++ t2 ++ t3 ++ (RemoveUsers env input ru3).2) ∧
    (∀ u, Ev.provision u ∈ t3 → Ev.addUser u ∈ t3 →
      occursBefore (Ev.provision u) (Ev.addUser u) t3) := by
  constructor
  · simp only [SyncUsers, hL, hI, hS]
  · intro u hp ha
    have h2 := SyncSamlUsers_prov_before_add env input.samlUsers uaa ru2 u
    rw [hS] at h2
    exact h2 hp ha

theorem C3_source_order_witness :
    SyncUsers envOK resolverG (.ok []) uaaGinaIvan inputC3 =
      ((RemoveUsers envOK inputC3 []).1,
        [("gina", samUser "gina"), ("ivan", samUser "ivan"), ("sam@x", samUser "sam@x")],
        [Ev.addUser "gina"] ++ [Ev.addUser "ivan"] ++
          [Ev.provision "sam@x", Ev.addUser "sam@x"] ++ (RemoveUsers envOK inputC3 []).2) ∧
    occursBefore (Ev.provision "sam@x") (Ev.addUser "sam@x")
      [Ev.provision "sam@x", Ev.addUser "sam@x"] :=
  ⟨(C3_source_order envOK resolverG uaaGinaIvan
      [("gina", samUser "gina"), ("ivan", samUser "ivan"), ("sam@x", samUser "sam@x")]
      [] [] [] [] inputC3 [Ev.addUser "gina"] [Ev.addUser "ivan"]
      [Ev.provision "sam@x", Ev.addUser "sam@x"] rfl rfl rfl).1,
   (C3_source_order envOK resolverG uaaGinaIvan
      [("gina", samUser "gina"), ("ivan", samUser "ivan"), ("sam@x", samUser "sam@x")]
      [] [] [] [] inputC3 [Ev.addUser "gina"] [Ev.addUser "ivan"]
      [Ev.provision "sam@x", Ev.addUser "sam@x"] rfl rfl rfl).2 "sam@x"
      (by decide) (by decide)⟩

theorem samlOne_err_cases (env : SyncEnv) (uaa : UAAMap) (ru : RoleUsers) (e : String) :
    (samlOne env uaa ru e).1 = none ∨ (samlOne env uaa ru e).1 = some (.addFailed e) := by
  cases hu : mapLookup uaa (strToLower e) with
  | some v =>
    cases hr : mapLookup ru (strToLower e) with
    | none => cases ha : env.addOk e <;> simp [samlOne, hu, hr, ha]
    | some _ => simp [samlOne, hu, hr]
  | none =>
    cases hp : env.provisionOk e with
    | true =>
      cases hr : mapLookup ru (strToLower e) with
      | none => cases ha : env.addOk e <;> simp [samlOne, hu, hp, hr, ha]
      | some _ => simp [samlOne, hu, hp, hr]
    | false => simp [samlOne, hu, hp]

theorem SyncSamlUsers_error_only_add (env : SyncEnv) :
    ∀ (users : List String) (uaa : UAAMap) (ru : RoleUsers) (e : Err),
      (SyncSamlUsers env uaa users ru).1 = .error e → ∃ w ∈ users, e = .addFailed w := by
  intro users
  induction users with
  | nil =>
    intro uaa ru e h
    simp [SyncSamlUsers] at h
  | cons v rest ih =>
    intro uaa ru e h
    cases ho : (samlOne env uaa ru v).1 with
    | some err =>
      simp only [SyncSamlUsers, ho] at h
      rcases samlOne_err_cases env uaa ru v with h2 | h2
      · rw [ho] at h2
        exact Option.noConfusion h2
      · rw [ho] at h2
        injection h2 with h3
        injection h with h4
        exact ⟨v, by simp, by rw [← h4, h3]⟩
    | none =>
      simp only [SyncSamlUsers, ho] at h
      obtain ⟨w, hw, hew⟩ := ih _ _ e h
      exact ⟨w, by simp [hw], hew⟩

theorem SyncInternalUsers_addFailed (env : SyncEnv) (uaa : UAAMap) :
    ∀ (users : List String) (ru : RoleUsers) (u : String),
      Ev.addUser u ∈ (SyncInternalUsers env uaa users ru).2.2 →
      env.addOk u = false →
      (SyncInternalUsers env uaa users ru).1 = .error (.addFailed u) := by
  intro users
  induction users with
  | nil =>
    intro ru u hmem hfail
    simp [SyncInternalUsers] at hmem
  | cons v rest ih =>
    intro ru u hmem hfail
    cases hu : mapLookup uaa (strToLower v) with
    | none => simp [SyncInternalUsers, hu] at hmem
    | some _ =>
      cases hr : mapLookup ru (strToLower v) with
      | none =>
        cases ha : env.addOk v with
        | true =>
          simp only [SyncInternalUsers, hu, hr, ha] at hmem ⊢
          simp only [if_true, List.mem_cons] at hmem
          rcases hmem with h2 | h2
          · injection h2 with h3
            rw [h3] at hfail
            rw [hfail] at ha
            exact Bool.noConfusion ha
          · simpa using ih ru u h2 hfail
        | false =>
          simp [SyncInternalUsers, hu, hr, ha] at hmem ⊢
          simp [hmem]
      | some _ =>
        simp only [SyncInternalUsers, hu, hr] at hmem ⊢
        exact ih _ u hmem hfail

theorem removeAll_removeFailed (env : SyncEnv) :
    ∀ (ru : RoleUsers) (u : String),
      Ev.removeUser u ∈ (removeAll env ru).2 →
      env.removeOk u = false →
      (removeAll env ru).1 = .error (.removeFailed u) := by
  intro ru
  induction ru with
  | nil =>
    intro u hmem hfail
    simp [removeAll] at hmem
  | cons p rest ih =>
    intro u hmem hfail
    obtain ⟨v, g⟩ := p
    cases hv : env.removeOk v with
    | true =>
      simp only [removeAll, hv] at hmem ⊢
      simp only [if_true, List.mem_cons] at hmem
      rcases hmem with h2 | h2
      · injection h2 with h3
        rw [h3] at hfail
        rw [hfail] at hv
        exact Bool.noConfusion hv
      · simpa using ih u h2 hfail
    | false =>
      simp [removeAll, hv] at hmem ⊢
      simp [hmem]

theorem RemoveUsers_removeFailed (env : SyncEnv) (input : UpdateUsersInput)
    (ru : RoleUsers) (u : String)
    (hmem : Ev.removeUser u ∈ (RemoveUsers env input ru).2)
    (hfail : env.removeOk u = false) :
    (RemoveUsers env input ru).1 = .error (.removeFailed u) := by
  cases hfl : input.removeUsers with
  | true =>
    simp only [RemoveUsers, hfl, if_true] at hmem ⊢
    exact removeAll_removeFailed env ru u hmem hfail
  | false => simp [RemoveUsers, hfl] at hmem

theorem SyncSamlUsers_provision_all_fail (env : SyncEnv) :
    ∀ (users : List String) (uaa : UAAMap) (ru : RoleUsers),
      (∀ u ∈ users, mapLookup uaa (strToLower u) = none) →
      (∀ u ∈ users, env.provisionOk u = false) →
      SyncSamlUsers env uaa users ru = (.ok (), uaa, ru, users.map Ev.provision) := by
  intro users
  induction users with
  | nil =>
    intro uaa ru h1 h2
    simp [SyncSamlUsers]
  | cons v rest ih =>
    intro uaa ru h1 h2
    have hone : samlOne env uaa ru v = (none, uaa, ru, [Ev.provision v]) := by
      simp [samlOne, h1 v (by simp), h2 v (by simp)]
    simp only [SyncSamlUsers, hone]
    rw [ih uaa ru (fun w hw => h1 w (by simp [hw])) (fun w hw => h2 w (by simp [hw]))]
    rfl

/-- Claim C8: federated provisioning failure is non-fatal and locally
recovered — failing principals are skipped (no add call) and the SAML stage
still succeeds, and a SAML-stage error can only come from an add call —
while a list, add or remove failure aborts the binding's reconciliation
with an error. -/
theorem C8_error_policy (env : SyncEnv) (resolver : String → Option (List String))
    (uaa : UAAMap) (input : UpdateUsersInput) (e : Err) :
    (SyncUsers env resolver (.error e) uaa input = (.error e, uaa, [])) ∧
    (∀ (ru ru1 : RoleUsers) (t1 : List Ev) (u : String),
      SyncLdapUsers env resolver uaa input.ldapGroupNames ru = (.ok (), ru1, t1) →
      Ev.addUser u ∈ (SyncInternalUsers env uaa input.users ru1).2.2 →
      env.addOk u = false →
      (SyncUsers env resolver (.ok ru) uaa input).1 = .error (.addFailed u)) ∧
    ((∀ u ∈ input.samlUsers, mapLookup uaa (strToLower u) = none) →
      (∀ u ∈ input.samlUsers, env.provisionOk u = false) →
      ∀ ru2 : RoleUsers,
        SyncSamlUsers env uaa input.samlUsers ru2 =
          (.ok (), uaa, ru2, input.samlUsers.map Ev.provision) ∧
        ∀ u2, Ev.addUser u2 ∉ input.samlUsers.map Ev.provision) ∧
    (∀ (users2 : List String) (ru2 : RoleUsers) (e2 : Err),
      (SyncSamlUsers env uaa users2 ru2).1 = .error e2 → ∃ w ∈ users2, e2 = .addFailed w) ∧
    (∀ (ru4 : RoleUsers) (u : String),
      Ev.removeUser u ∈ (RemoveUsers env input ru4).2 →
      env.removeOk u = false →
      (RemoveUsers env input ru4).1 = .error (.removeFailed u)) := by
  refine ⟨rfl, ?_, ?_, ?_, ?_⟩
  · intro ru ru1 t1 u hL hmem hfail
    have hIerr := SyncInternalUsers_addFailed env uaa input.users ru1 u hmem hfail
    simp only [SyncUsers, hL]
    simp [hIerr]
  · intro h1 h2 ru2
    refine ⟨SyncSamlUsers_provision_all_fail env input.samlUsers uaa ru2 h1 h2, ?_⟩
    intro u2 hmem
    obtain ⟨x, _, hEq⟩ := List.mem_map.mp hmem
    exact Ev.noConfusion hEq
  · intro users2 ru2 e2 h
    exact SyncSamlUsers_error_only_add env users2 uaa ru2 e2 h
  · intro ru4 u hmem hfail
    exact RemoveUsers_removeFailed env input ru4 u hmem hfail

theorem C8_error_policy_witness :
    SyncUsers envOK noGroups (.error .listFailed) uaaSam inputSam =
      (.error .listFailed, uaaSam, []) ∧
    SyncSamlUsers (SyncEnv.mk (fun _ => true) (fun _ => true) (fun _ => false) "ldap") [] inputSam.samlUsers [] =
      (.ok (), [], [], inputSam.samlUsers.map Ev.provision) ∧
    (RemoveUsers (SyncEnv.mk (fun _ => true) (fun _ => false) (fun _ => true) "ldap") inputC6 ruAlice).1 =
      .error (.removeFailed "alice") :=
  ⟨(C8_error_policy envOK noGroups uaaSam inputSam .listFailed).1,
   ((C8_error_policy (SyncEnv.mk (fun _ => true) (fun _ => true) (fun _ => false) "ldap") noGroups [] inputSam
      .listFailed).2.2.1 (by decide) (by decide) []).1,
   (C8_error_policy (SyncEnv.mk (fun _ => true) (fun _ => false) (fun _ => true) "ldap") noGroups [] inputC6
      .listFailed).2.2.2.2 ruAlice "alice" (by decide) rfl⟩
